import Mathlib

/-!
Verification development for the gxf-discord-bot action dispatch engine.

The Go sources are shallowly embedded:
* `pkg/ratelimit/ratelimit.go` — token-bucket limiter (`Bucket`, `allowScope`,
  `Limiter.allow`), time modelled as `Nat` instants.
* `internal/handlers` sliding-window limiter (`rlAllow`) and the message
  dispatch loop (`handleMessage`, `checkConditions`, `checkCondition`,
  `checkRateLimit`), time modelled as `Int` instants.
* `pkg/action/handler.go` — `CommandHandler.Matches` and `NewManager`,
  Go strings modelled as `List Char`.
-/

/-- Go strings are modelled as lists of characters. -/
abbrev Str := List Char

/-- Convert a Lean string literal to the `List Char` model. -/
def gs (s : String) : Str := s.toList

namespace RateLimit

/-- Token-bucket state, from `pkg/ratelimit/ratelimit.go` (`type bucket`).
`tokens` never goes below zero in the source (it is decremented only when
positive), so `Nat` is faithful. -/
structure Bucket where
  tokens : Nat
  maxTokens : Nat
  window : Nat
  lastReset : Nat
  deriving Repr, DecidableEq

/-- `(*bucket).reset`: refill when the window has passed
(`time.Since(b.lastReset) >= b.window`). -/
def Bucket.reset (b : Bucket) (now : Nat) : Bucket :=
  if b.window ≤ now - b.lastReset then
    { b with tokens := b.maxTokens, lastReset := now }
  else b

/-- `(*bucket).allow`: lazy reset, then take a token if available. -/
def Bucket.allow (b : Bucket) (now : Nat) : Bool × Bucket :=
  let b := b.reset now
  if 0 < b.tokens then (true, { b with tokens := b.tokens - 1 })
  else (false, b)

/-- One scope of the `Limiter` (per-user, per-channel or per-guild):
the configured limit, window, and the lazily filled bucket map. -/
structure ScopeState where
  limit : Nat
  window : Nat
  buckets : Str → Option Bucket

/-- `Limiter.AllowUser` / `AllowChannel` / `AllowGuild`: allow when no limit is
configured, otherwise get-or-create the bucket for the key and run
`bucket.allow` on it. -/
def allowScope (s : ScopeState) (key : Str) (now : Nat) : Bool × ScopeState :=
  if s.limit == 0 then (true, s)
  else
    let b := match s.buckets key with
      | some b => b
      | none => ⟨s.limit, s.limit, s.window, now⟩
    let rb := b.allow now
    (rb.1, { s with buckets := fun k => if k == key then some rb.2 else s.buckets k })

/-- The whole `Limiter`: three keyed scopes plus the global bucket. -/
structure Limiter where
  user : ScopeState
  channel : ScopeState
  guild : ScopeState
  globalLimit : Nat
  globalWindow : Nat
  globalBucket : Option Bucket

/-- `Limiter.AllowUser`. -/
def allowUser (l : Limiter) (id : Str) (now : Nat) : Bool × Limiter :=
  let rs := allowScope l.user id now
  (rs.1, { l with user := rs.2 })

/-- `Limiter.AllowChannel`. -/
def allowChannel (l : Limiter) (id : Str) (now : Nat) : Bool × Limiter :=
  let rs := allowScope l.channel id now
  (rs.1, { l with channel := rs.2 })

/-- `Limiter.AllowGuild`. -/
def allowGuild (l : Limiter) (id : Str) (now : Nat) : Bool × Limiter :=
  let rs := allowScope l.guild id now
  (rs.1, { l with guild := rs.2 })

/-- `Limiter.AllowGlobal`: allow when no limit configured or the global bucket
was never set, otherwise run the global bucket. -/
def allowGlobal (l : Limiter) (now : Nat) : Bool × Limiter :=
  if l.globalLimit == 0 then (true, l)
  else
    match l.globalBucket with
    | none => (true, l)
    | some b =>
      let rb := b.allow now
      (rb.1, { l with globalBucket := some rb.2 })

/-- `Limiter.Allow`: the combined check, sequential with early return
exactly as in the source. -/
def Limiter.allow (l : Limiter) (userID channelID guildID : Str) (now : Nat) :
    Bool × Limiter :=
  let r1 := allowUser l userID now
  if !r1.1 then (false, r1.2)
  else
    let r2 := allowChannel r1.2 channelID now
    if !r2.1 then (false, r2.2)
    else
      let r3 := allowGuild r2.2 guildID now
      if !r3.1 then (false, r3.2)
      else
        let r4 := allowGlobal r3.2 now
        if !r4.1 then (false, r4.2)
        else (true, r4.2)

/-- Run a sequence of `bucket.allow` calls at the given instants. -/
def runBucket (b : Bucket) : List Nat → List Bool × Bucket
  | [] => ([], b)
  | t :: ts =>
    let rb := b.allow t
    let rs := runBucket rb.2 ts
    (rb.1 :: rs.1, rs.2)

/-- Run a sequence of scope checks for a single key at the given instants. -/
def runScope (s : ScopeState) (key : Str) : List Nat → List Bool × ScopeState
  | [] => ([], s)
  | t :: ts =>
    let rs := allowScope s key t
    let rest := runScope rs.2 key ts
    (rs.1 :: rest.1, rest.2)

end RateLimit

namespace Handlers

/-- Sliding-window limiter state from `internal/handlers` (`RateLimiter`):
the per-key list of recorded request instants.  A key absent from the Go map
behaves exactly like a key mapped to the empty slice, so the map is modelled
as a total function with default `[]`.  Instants are `Int` because
`now.Add(-window)` may be negative. -/
def RLState := Str → List Int

/-- `RateLimiter.Allow`: drop instants at or before `now - window`, reject if
the survivors already reach `maxRequests`, otherwise record `now`. -/
def rlAllow (st : RLState) (key : Str) (maxRequests : Nat) (window : Int)
    (now : Int) : Bool × RLState :=
  let cutoff := now - window
  let valid := (st key).filter (fun t => cutoff < t)
  if maxRequests ≤ valid.length then
    (false, fun k => if k == key then valid else st k)
  else
    (true, fun k => if k == key then valid ++ [now] else st k)

end Handlers

namespace GoStr

/-- Lower-case a character as Go `strings.ToLower` does on ASCII letters
(the command keywords in this system are ASCII). -/
def toLowerChar (c : Char) : Char :=
  if 65 ≤ c.toNat ∧ c.toNat ≤ 90 then Char.ofNat (c.toNat + 32) else c

/-- Lower-case a string (`strings.ToLower`). -/
def toLowerStr (s : Str) : Str := s.map toLowerChar

/-- Go `unicode.IsSpace` on the Latin-1 range: space, tab, newline, vertical
tab, form feed, carriage return, NEL, NBSP. -/
def go_isSpace (c : Char) : Bool :=
  c == ' ' || c == Char.ofNat 9 || c == Char.ofNat 10 || c == Char.ofNat 11 ||
    c == Char.ofNat 12 || c == Char.ofNat 13 || c == Char.ofNat 133 ||
    c == Char.ofNat 160

/-- Drop leading whitespace (`strings.TrimLeft` over `IsSpace`). -/
def trimLeft (s : Str) : Str := s.dropWhile go_isSpace

/-- Drop trailing whitespace. -/
def trimRight (s : Str) : Str := (s.reverse.dropWhile go_isSpace).reverse

/-- `strings.TrimSpace`. -/
def trimSpace (s : Str) : Str := trimRight (trimLeft s)

/-- `strings.HasPrefix`. -/
def goHasPfx : Str → Str → Bool
  | [], _ => true
  | _ :: _, [] => false
  | a :: as, b :: bs => a == b && goHasPfx as bs

/-- `strings.TrimPrefix`: remove the leading portion only when present. -/
def goTrimPfx (p s : Str) : Str := if goHasPfx p s then s.drop p.length else s

/-- `strings.Fields`: split around runs of whitespace. -/
def fields : Str → List Str
  | [] => []
  | c :: cs =>
    if go_isSpace c then fields cs
    else (c :: cs.takeWhile (fun d => !go_isSpace d)) ::
      fields (cs.dropWhile (fun d => !go_isSpace d))
termination_by s => s.length
decreasing_by
  · simp only [List.length_cons]
    omega
  · simp only [List.length_cons]
    have h : (cs.dropWhile (fun d => !go_isSpace d)).length ≤ cs.length := by
      conv_rhs => rw [← List.takeWhile_append_dropWhile (fun d => !go_isSpace d) cs]
      rw [List.length_append]
      omega
    omega

end GoStr

namespace PkgAction

open GoStr

/-- `CommandHandler` from `pkg/action/handler.go`. -/
structure CommandHandler where
  pfx : Str
  command : Str
  deriving Repr, DecidableEq

/-- `NewCommandHandler`: the keyword is stored lower-cased. -/
def newCommandHandler (p command : Str) : CommandHandler :=
  ⟨p, toLowerStr command⟩

/-- `CommandHandler.Matches`: trim the content, require the configured
message prefix, then compare the first whitespace-delimited word (lower-cased)
against the stored keyword. -/
def CommandHandler.matches (h : CommandHandler) (content : Str) : Bool :=
  let c1 := trimSpace content
  if !goHasPfx h.pfx c1 then false
  else
    let c2 := trimSpace (goTrimPfx h.pfx c1)
    match fields c2 with
    | [] => false
    | w :: _ => toLowerStr w == h.command

/-- The matching predicate exactly as the spec sentence for C4 words it:
the event content starts with `prefix + command`, with the comparison of the
command portion case-insensitive. -/
def claimC4Matches (p command content : Str) : Bool :=
  goHasPfx p content &&
    toLowerStr ((content.drop p.length).take command.length) == toLowerStr command

/-- `config.TriggerConfig`, restricted to the fields `NewManager` reads. -/
structure TriggerConfig where
  command : Str
  pattern : Str
  emoji : Str
  deriving Repr, DecidableEq

/-- `config.ActionConfig`, restricted to the fields `NewManager` reads. -/
structure ActionConfig where
  name : Str
  type : Str
  trigger : TriggerConfig
  deriving Repr, DecidableEq

/-- A compiled handler as built by `NewManager`.  A compiled regular
expression is abstracted by its `MatchString` function. -/
inductive PHandler where
  | command (h : CommandHandler)
  | message (matchString : Str → Bool)
  | reaction (emoji : Str)

/-- An `Action` entry of the `pkg/action` manager. -/
structure LoadedAction where
  cfg : ActionConfig
  handler : PHandler

/-- `NewManager` from `pkg/action/handler.go`, parametric in the regex
compiler (`regexp.Compile`), which returns either an error or the compiled
matcher.  A `command` or `reaction` config always loads; a `message` config
aborts the whole construction when its pattern fails to compile; any other
type is skipped with a debug log and loading continues. -/
def newManager (compile : Str → Except Str (Str → Bool)) (botPfx : Str) :
    List ActionConfig → Except Str (List LoadedAction)
  | [] => Except.ok []
  | c :: rest =>
    if c.type == gs "command" then
      (newManager compile botPfx rest).map
        (fun l => ⟨c, .command (newCommandHandler botPfx c.trigger.command)⟩ :: l)
    else if c.type == gs "message" then
      match compile c.trigger.pattern with
      | Except.error e =>
        Except.error (gs "failed to create message handler for " ++ c.name ++
          gs ": " ++ e)
      | Except.ok re =>
        (newManager compile botPfx rest).map (fun l => ⟨c, .message re⟩ :: l)
    else if c.type == gs "reaction" then
      (newManager compile botPfx rest).map
        (fun l => ⟨c, .reaction c.trigger.emoji⟩ :: l)
    else
      newManager compile botPfx rest

/-- `Manager.HandleMessage` from `pkg/action/handler.go`: return the first
action whose handler matches the content (the source logs and returns at the
first match). -/
def pkgHandleMessage (content : Str) : List LoadedAction → Option ActionConfig
  | [] => none
  | a :: rest =>
    let m := match a.handler with
      | .command h => h.matches content
      | .message f => f content
      | .reaction e => e == content
    if m then some a.cfg else pkgHandleMessage content rest

end PkgAction

namespace Handlers

open GoStr

/-- A condition of an `internal/handlers` action. -/
structure HCondition where
  type : Str
  value : Str
  operator : Str
  deriving Repr, DecidableEq

/-- Per-action rate-limit policy (`RateLimitConfig`), window already in
time units. -/
structure HRateLimitConfig where
  requests : Nat
  window : Int
  scope : Str
  deriving Repr, DecidableEq

/-- An `internal/handlers` `Action`, restricted to the fields the dispatch
path reads.  The compiled `Pattern` regex is abstracted by its
`MatchString` function. -/
structure HAction where
  name : Str
  type : Str
  triggerCommand : Str
  triggerChannels : List Str
  triggerGuilds : List Str
  pattern : Option (Str → Bool)
  conditions : List HCondition
  rateLimit : Option HRateLimitConfig
  requireAuth : Bool

/-- The external collaborators of the dispatcher: the configured bot prefix,
the auth manager, and the Discord session lookups used by conditions. -/
structure Env where
  pfx : Str
  authEnabled : Bool
  isAuthenticated : Str → Bool
  getAuthURL : Str → Str
  guildMember : Str → Str → Except Unit (List Str)
  userChannelPermissions : Str → Str → Except Unit Int

/-- An inbound message event. -/
structure Msg where
  content : Str
  authorID : Str
  channelID : Str
  guildID : Str

/-- `compareValue`: equality or negation, defaulting to equality. -/
def compareValue (actual expected op : Str) : Bool :=
  if op == gs "equals" then actual == expected
  else if op == gs "not" then actual != expected
  else actual == expected

/-- `ActionManager.checkCondition`: switch on the condition type; a failed
role or permission lookup is logged and evaluates to `false` (the function
returns a plain boolean, never an error). -/
def checkCondition (env : Env) (msg : Msg) (c : HCondition) : Bool :=
  if c.type == gs "channel" then compareValue msg.channelID c.value c.operator
  else if c.type == gs "user" then compareValue msg.authorID c.value c.operator
  else if c.type == gs "role" then
    if msg.guildID == [] then false
    else
      match env.guildMember msg.guildID msg.authorID with
      | Except.error _ => false
      | Except.ok roles => roles.any (fun r => r == c.value)
  else if c.type == gs "permission" then
    if msg.guildID == [] then false
    else
      match env.userChannelPermissions msg.authorID msg.channelID with
      | Except.error _ => false
      | Except.ok perms => decide (0 < perms)
  else false

/-- The "please authenticate" message sent by `checkConditions`. -/
def authPrompt (url : Str) : Str :=
  gs "This command requires authentication. Please authenticate here: " ++ url

/-- `ActionManager.checkConditions`: channel allow-list, guild allow-list,
then the auth gate (which sends the auth prompt when the caller is not
authenticated), then every configured condition.  The second component
collects the messages sent on the session while checking. -/
def checkConditions (env : Env) (msg : Msg) (a : HAction) : Bool × List Str :=
  if decide (0 < a.triggerChannels.length) &&
      !(a.triggerChannels.any (fun ch => ch == msg.channelID)) then (false, [])
  else if decide (0 < a.triggerGuilds.length) &&
      !(a.triggerGuilds.any (fun g => g == msg.guildID)) then (false, [])
  else if a.requireAuth && !env.authEnabled then (false, [])
  else if a.requireAuth && !env.isAuthenticated msg.authorID then
    (false, [authPrompt (env.getAuthURL msg.authorID)])
  else (a.conditions.all (fun c => checkCondition env msg c), [])

/-- The bucket key built by `ActionManager.checkRateLimit`: the action name,
then `:` and the identifier selected by the scope (`user` is also the
default); `global` uses the bare action name. -/
def scopeKey (name scope u c g : Str) : Str :=
  if scope == gs "user" then name ++ gs ":" ++ u
  else if scope == gs "channel" then name ++ gs ":" ++ c
  else if scope == gs "guild" then name ++ gs ":" ++ g
  else if scope == gs "global" then name
  else name ++ gs ":" ++ u

/-- `ActionManager.checkRateLimit`: no policy means allow; otherwise run the
sliding-window limiter on the namespaced key. -/
def checkRateLimit (st : RLState) (userID channelID guildID : Str)
    (a : HAction) (now : Int) : Bool × RLState :=
  match a.rateLimit with
  | none => (true, st)
  | some cfg =>
    rlAllow st (scopeKey a.name cfg.scope userID channelID guildID)
      cfg.requests cfg.window now

/-- The command-trigger test inside `ActionManager.HandleMessage`: a plain,
case-sensitive comparison of the leading characters of the content against
`prefix + command`. -/
def commandTriggerMatches (pfx command content : Str) : Bool :=
  let commandStr := pfx ++ command
  decide (commandStr.length ≤ content.length) &&
    content.take commandStr.length == commandStr

/-- The trigger test of `ActionManager.HandleMessage` for one action. -/
def triggerMatches (pfx : Str) (a : HAction) (content : Str) : Bool :=
  if a.type == gs "command" && a.triggerCommand != [] then
    commandTriggerMatches pfx a.triggerCommand content
  else if a.type == gs "message" then
    match a.pattern with
    | some p => p content
    | none => false
  else false

/-- `ActionManager.HandleMessage`: walk the registered actions in order; skip
actions that are not message/command typed, whose trigger does not match,
whose conditions fail (their session sends are kept), or whose rate limit
rejects (the limiter state mutation is kept); submit the first surviving
action and stop.  Returns the dispatched action name, the messages sent on
the session while checking, and the final limiter state. -/
def handleMessage (env : Env) (st : RLState) (msg : Msg) (now : Int) :
    List HAction → Option Str × List Str × RLState
  | [] => (none, [], st)
  | a :: rest =>
    if a.type != gs "message" && a.type != gs "command" then
      handleMessage env st msg now rest
    else if !triggerMatches env.pfx a msg.content then
      handleMessage env st msg now rest
    else
      let cc := checkConditions env msg a
      if !cc.1 then
        let r := handleMessage env st msg now rest
        (r.1, cc.2 ++ r.2.1, r.2.2)
      else
        let rl := checkRateLimit st msg.authorID msg.channelID msg.guildID a now
        if !rl.1 then
          let r := handleMessage env rl.2 msg now rest
          (r.1, cc.2 ++ r.2.1, r.2.2)
        else (some a.name, cc.2, rl.2)

/-- The limiter-state effect of the dispatch loop on one action it passes
over: only an action that reaches the rate-limit check (right kind, matching
trigger, passing conditions) mutates the limiter state. -/
def skipStep (env : Env) (msg : Msg) (now : Int) (st : RLState) (b : HAction) :
    RLState :=
  if b.type != gs "message" && b.type != gs "command" then st
  else if !triggerMatches env.pfx b msg.content then st
  else if !(checkConditions env msg b).1 then st
  else (checkRateLimit st msg.authorID msg.channelID msg.guildID b now).2

/-- The limiter state after the dispatch loop has passed over a list of
actions without dispatching any of them. -/
def skipState (env : Env) (msg : Msg) (now : Int) : RLState → List HAction → RLState
  | st, [] => st
  | st, b :: rest => skipState env msg now (skipStep env msg now st b) rest

/-- Every action in the list is skipped by the dispatch loop: wrong kind,
trigger mismatch, failing conditions, or a rejected rate-limit check against
the limiter state the loop carries at that point. -/
def allSkipped (env : Env) (msg : Msg) (now : Int) : RLState → List HAction → Prop
  | _, [] => True
  | st, b :: rest =>
    ((b.type ≠ gs "message" ∧ b.type ≠ gs "command") ∨
      triggerMatches env.pfx b msg.content = false ∨
      (checkConditions env msg b).1 = false ∨
      (checkRateLimit st msg.authorID msg.channelID msg.guildID b now).1 = false) ∧
    allSkipped env msg now (skipStep env msg now st b) rest

end Handlers

namespace Sched

/-- `Scheduler` from `package scheduler` (`pkg/scheduler`; its source sits
concatenated inside `src/pkg/response/response_test.go` in this snapshot):
the `running` flag guarded by `runMu`.  The cron engine, the logger and the
job map are external or untouched by `Start`/`Stop` and are not
represented. -/
structure Scheduler where
  running : Bool
  deriving Repr, DecidableEq

/-- `scheduler.New`: a fresh scheduler is not running. -/
def Scheduler.new : Scheduler := ⟨false⟩

/-- `(*Scheduler).IsRunning`. -/
def Scheduler.isRunning (s : Scheduler) : Bool := s.running

/-- `(*Scheduler).Start`: fails with `"scheduler already running"` when
running, otherwise starts the cron engine and sets `running`. -/
def Scheduler.start (s : Scheduler) : Except Str Scheduler :=
  if s.running then Except.error (gs "scheduler already running")
  else Except.ok { s with running := true }

/-- `(*Scheduler).Stop`: fails with `"scheduler not running"` when not
running, otherwise stops the cron engine, waits for it to drain, and clears
`running`. -/
def Scheduler.stop (s : Scheduler) : Except Str Scheduler :=
  if !s.running then Except.error (gs "scheduler not running")
  else Except.ok { s with running := false }

end Sched

namespace Fixture

open Handlers PkgAction

/-- An environment whose role lookup always errors. -/
def envRoleErr : Env :=
  { pfx := gs "!", authEnabled := false, isAuthenticated := fun _ => true,
    getAuthURL := fun _ => [], guildMember := fun _ _ => Except.error (),
    userChannelPermissions := fun _ _ => Except.ok 1 }

/-- An environment whose role lookup succeeds. -/
def envRoleOk : Env :=
  { pfx := gs "!", authEnabled := false, isAuthenticated := fun _ => true,
    getAuthURL := fun _ => [], guildMember := fun _ _ => Except.ok [gs "R"],
    userChannelPermissions := fun _ _ => Except.ok 1 }

/-- An environment with auth enabled and every caller unauthenticated. -/
def envAuth : Env :=
  { pfx := gs "!", authEnabled := true, isAuthenticated := fun _ => false,
    getAuthURL := fun u => gs "https://auth/" ++ u,
    guildMember := fun _ _ => Except.ok [],
    userChannelPermissions := fun _ _ => Except.ok 0 }

/-- A message `!ping` from user `U` in channel `C` of guild `G`. -/
def msgPing : Msg :=
  { content := gs "!ping", authorID := gs "U", channelID := gs "C",
    guildID := gs "G" }

/-- A bare `!ping` command action. -/
def baseAct : HAction :=
  { name := gs "a", type := gs "command", triggerCommand := gs "ping",
    triggerChannels := [], triggerGuilds := [], pattern := none,
    conditions := [], rateLimit := none, requireAuth := false }

/-- A role-membership condition. -/
def condRole : HCondition := { type := gs "role", value := gs "R", operator := gs "equals" }

/-- A channel-equality condition satisfied by `msgPing`. -/
def condChanC : HCondition := { type := gs "channel", value := gs "C", operator := gs "equals" }

/-- A channel-equality condition not satisfied by `msgPing`. -/
def condChanX : HCondition := { type := gs "channel", value := gs "X", operator := gs "equals" }

/-- The `!ping` action carrying the role condition. -/
def actRole : HAction := { baseAct with conditions := [condRole] }

/-- The `!ping` action carrying the satisfied channel condition. -/
def actChanC : HAction := { baseAct with conditions := [condChanC] }

/-- First registered `!ping` action, whose channel condition fails for
`msgPing`. -/
def actFirst : HAction :=
  { baseAct with name := gs "first", conditions := [condChanX] }

/-- Second registered `!ping` action, unconditioned. -/
def actSecond : HAction := { baseAct with name := gs "second" }

/-- The `!ping` action requiring authentication. -/
def actAuth : HAction := { baseAct with requireAuth := true }

/-- A `!ping` action whose rate limit (`requests = 0`, user scope) rejects
every request. -/
def actRLZero : HAction :=
  { baseAct with
    name := gs "z",
    rateLimit := some { requests := 0, window := 60, scope := gs "user" } }

/-- A user-scoped, one-request rate-limited action named `a`. -/
def actRL1 : HAction :=
  { baseAct with
    name := gs "a",
    rateLimit := some { requests := 1, window := 60, scope := gs "user" } }

/-- A globally scoped, one-request rate-limited action named `a:b`. -/
def actRL2 : HAction :=
  { baseAct with
    name := gs "a:b",
    rateLimit := some { requests := 1, window := 60, scope := gs "global" } }

/-- A message whose author identifier is `b` (for the key-collision run). -/
def msgB : Msg :=
  { content := gs "!ping", authorID := gs "b", channelID := gs "C",
    guildID := gs "G" }

/-- A regex compiler stub that accepts every pattern. -/
def compileOk : Str → Except Str (Str → Bool) := fun _ => Except.ok (fun _ => false)

/-- A descriptor with an unknown trigger kind. -/
def bogusCfg : ActionConfig :=
  { name := gs "x", type := gs "bogus", trigger := { command := [], pattern := [], emoji := [] } }

end Fixture

section Theorems

open RateLimit Handlers

/-- A fresh sliding-window check with `maxRequests = 0` rejects: the filtered
request list always has length at least zero. -/
theorem rlAllow_zero_max (st : RLState) (key : Str) (w now : Int) :
    (rlAllow st key 0 w now).1 = false := by
  simp [rlAllow]

/-- C5 counterexample: with a zero configured limit, the dispatcher's
sliding-window limiter rejects the very first request for a fresh scope key,
so a zero-limit scope does not always allow. -/
theorem c5_counterexample :
    (rlAllow (fun _ => []) (gs "k") 0 10 0).1 = false := by
  exact rlAllow_zero_max _ _ _ _

/-- C5 amended: in the token-bucket limiter (`pkg/ratelimit`) a scope with a
zero configured limit always allows and leaves the state untouched, while the
dispatcher's sliding-window limiter (`internal/handlers`) with
`maxRequests = 0` rejects every request. -/
theorem c5_zero_limit_behaviour :
    (∀ (w : Nat) (b : Str → Option Bucket) (key : Str) (now : Nat),
      allowScope ⟨0, w, b⟩ key now = (true, ⟨0, w, b⟩)) ∧
    (∀ (st : RLState) (key : Str) (w now : Int),
      (rlAllow st key 0 w now).1 = false) := by
  constructor
  · intro w b key now
    rfl
  · intro st key w now
    exact rlAllow_zero_max st key w now

/-- C9: the scheduler state machine — `Start` fails with the
"scheduler already running" error exactly when running, `Stop` fails with
the "scheduler not running" error exactly when stopped, and otherwise they
transition `Stopped → Running` and `Running → Stopped`. -/
theorem c9_scheduler_state_machine (s : Sched.Scheduler) :
    (s.running = true → s.start = Except.error (gs "scheduler already running")) ∧
    (s.running = false → s.stop = Except.error (gs "scheduler not running")) ∧
    (s.running = false → s.start = Except.ok ⟨true⟩) ∧
    (s.running = true → s.stop = Except.ok ⟨false⟩) := by
  cases s with
  | mk r =>
    cases r <;>
      simp [Sched.Scheduler.start, Sched.Scheduler.stop]

/-- C9 witness: a fresh scheduler is stopped and starts successfully;
stopping it while stopped fails with the not-running error; starting an
already-running scheduler fails with the already-running error. -/
theorem c9_scheduler_witness :
    Sched.Scheduler.new.isRunning = false ∧
    Sched.Scheduler.new.start = Except.ok ⟨true⟩ ∧
    Sched.Scheduler.new.stop = Except.error (gs "scheduler not running") ∧
    Sched.Scheduler.start ⟨true⟩ = Except.error (gs "scheduler already running") := by
  refine ⟨rfl, (c9_scheduler_state_machine Sched.Scheduler.new).2.2.1 rfl,
    (c9_scheduler_state_machine Sched.Scheduler.new).2.1 rfl,
    (c9_scheduler_state_machine ⟨true⟩).1 rfl⟩

/-- C3: the combined `Limiter.Allow` is the conjunction of the four scope
checks as each would answer on the incoming state — the sequential early
returns change only disjoint state components, never the other answers. -/
theorem c3_combined_allow_is_conjunction (l : Limiter) (u c g : Str) (now : Nat) :
    (Limiter.allow l u c g now).1 =
      ((allowUser l u now).1 && (allowChannel l c now).1 &&
        (allowGuild l g now).1 && (allowGlobal l now).1) := by
  obtain ⟨su, sch, sg, gl, gw, gb⟩ := l
  simp only [Limiter.allow, allowUser, allowChannel, allowGuild, allowGlobal]
  rcases gb with _ | b
  · cases h1 : (allowScope su u now).1 <;>
      cases h2 : (allowScope sch c now).1 <;>
        cases h3 : (allowScope sg g now).1 <;>
          by_cases hl : gl = 0 <;> simp [h1, h2, h3, hl]
  · cases h1 : (allowScope su u now).1 <;>
      cases h2 : (allowScope sch c now).1 <;>
        cases h3 : (allowScope sg g now).1 <;>
          by_cases hl : gl = 0 <;>
            cases h4 : (b.allow now).1 <;> simp [h1, h2, h3, hl, h4]

/-- A bucket checked strictly inside its window is not refilled: the call
consumes a token exactly when one is available. -/
theorem bucket_allow_within (k n w u t : Nat) (h : t - u < w) :
    Bucket.allow ⟨k, n, w, u⟩ t = (decide (0 < k), ⟨k - 1, n, w, u⟩) := by
  have hw : ¬ w ≤ t - u := by omega
  cases k with
  | zero => simp [Bucket.allow, Bucket.reset, hw]
  | succ k => simp [Bucket.allow, Bucket.reset, hw]

/-- Running a bucket through a list of instants all strictly inside its
window answers `true` while tokens last and `false` afterwards, and never
moves `lastReset`. -/
theorem runBucket_within (ts : List Nat) (k n w u : Nat)
    (h : ∀ t ∈ ts, t - u < w) :
    runBucket ⟨k, n, w, u⟩ ts =
      (List.replicate (min k ts.length) true ++
        List.replicate (ts.length - k) false,
       ⟨k - ts.length, n, w, u⟩) := by
  induction ts generalizing k with
  | nil => simp [runBucket]
  | cons t ts ih =>
    have ht : t - u < w := h t (List.mem_cons_self t ts)
    have hts : ∀ t2 ∈ ts, t2 - u < w := fun t2 h2 => h t2 (List.mem_cons_of_mem t h2)
    simp only [runBucket, bucket_allow_within k n w u t ht]
    rw [ih (k - 1) hts]
    cases k with
    | zero =>
      simp [List.replicate_succ]
    | succ m =>
      have e1 : min (m + 1) (t :: ts).length = min m ts.length + 1 := by
        simp [Nat.succ_min_succ]
      have e2 : (t :: ts).length - (m + 1) = ts.length - m := by simp
      rw [e1, e2]
      simp [List.replicate_succ, Nat.succ_sub_succ]

/-- Threading `runScope` over a single key with a configured limit is
`runBucket` on that key's bucket; the limit, window and the key's final
bucket are reported exactly. -/
theorem runScope_of_bucket (ts : List Nat) (lim w : Nat) (hlim : (lim == 0) = false)
    (bmap : Str → Option Bucket) (key : Str) (b : Bucket) (hb : bmap key = some b) :
    (runScope ⟨lim, w, bmap⟩ key ts).1 = (runBucket b ts).1 ∧
    (runScope ⟨lim, w, bmap⟩ key ts).2.limit = lim ∧
    (runScope ⟨lim, w, bmap⟩ key ts).2.window = w ∧
    (runScope ⟨lim, w, bmap⟩ key ts).2.buckets key = some (runBucket b ts).2 := by
  induction ts generalizing bmap b with
  | nil => simp [runScope, runBucket, hb]
  | cons t ts ih =>
    have hstep : allowScope ⟨lim, w, bmap⟩ key t =
        ((b.allow t).1,
          ⟨lim, w, fun k => if k == key then some (b.allow t).2 else bmap k⟩) := by
      simp [allowScope, hlim, hb]
    have hkey : (fun k => if k == key then some (b.allow t).2 else bmap k) key =
        some (b.allow t).2 := by simp
    have ihh := ih (fun k => if k == key then some (b.allow t).2 else bmap k)
      (b.allow t).2 hkey
    simp only [runScope, runBucket, hstep]
    exact ⟨congrArg (List.cons (b.allow t).1) ihh.1, ihh.2.1, ihh.2.2.1, ihh.2.2.2⟩

/-- C1: starting from an absent bucket for a scope key with limit `N > 0` and
window `W`, the first `N` checks inside the window answer `true`, the
`(N+1)`-th inside the window answers `false`, and a later check at least `W`
after the bucket's last reset answers `true` again. -/
theorem c1_token_bucket_window (N W : Nat) (key : Str) (bmap : Str → Option Bucket)
    (u : Nat) (us : List Nat) (t2 : Nat)
    (hN : 0 < N) (habs : bmap key = none) (hlen : us.length = N)
    (hin : ∀ t ∈ us, t - u < W) (hlate : W ≤ t2 - u) :
    (runScope ⟨N, W, bmap⟩ key (u :: us)).1 =
      List.replicate N true ++ [false] ∧
    (allowScope (runScope ⟨N, W, bmap⟩ key (u :: us)).2 key t2).1 = true := by
  have hNe : (N == 0) = false := by simp; omega
  -- the first call creates the bucket and consumes the first token,
  -- whether or not the degenerate `W ≤ 0` refill fires
  have hfresh : Bucket.allow ⟨N, N, W, u⟩ u = (true, ⟨N - 1, N, W, u⟩) := by
    have hreset : Bucket.reset ⟨N, N, W, u⟩ u = ⟨N, N, W, u⟩ := by
      unfold Bucket.reset
      split <;> rfl
    simp [Bucket.allow, hreset, hN]
  have hstep : allowScope ⟨N, W, bmap⟩ key u =
      (true, ⟨N, W, fun k => if k == key then some (⟨N - 1, N, W, u⟩ : Bucket)
        else bmap k⟩) := by
    simp [allowScope, hNe, habs, hfresh]
  have hkey : (fun k => if k == key then some (⟨N - 1, N, W, u⟩ : Bucket)
      else bmap k) key = some ⟨N - 1, N, W, u⟩ := by simp
  have hrest := runScope_of_bucket us N W hNe
    (fun k => if k == key then some (⟨N - 1, N, W, u⟩ : Bucket) else bmap k)
    key ⟨N - 1, N, W, u⟩ hkey
  have hrun := runBucket_within us (N - 1) N W u hin
  constructor
  · simp only [runScope, hstep]
    rw [hrest.1, hrun]
    simp only [hlen]
    have h1 : min (N - 1) N = N - 1 := by omega
    have h2 : N - (N - 1) = 1 := by omega
    rw [h1, h2]
    cases N with
    | zero => omega
    | succ m => simp [List.replicate_succ]
  · have hfinal : (runScope ⟨N, W, bmap⟩ key (u :: us)).2.buckets key =
        some ⟨0, N, W, u⟩ := by
      simp only [runScope, hstep]
      rw [hrest.2.2.2, hrun]
      simp only [hlen]
      have : N - 1 - N = 0 := by omega
      rw [this]
    have hlim2 : (runScope ⟨N, W, bmap⟩ key (u :: us)).2.limit = N := by
      simp only [runScope, hstep]
      exact hrest.2.1
    have hwin2 : (runScope ⟨N, W, bmap⟩ key (u :: us)).2.window = W := by
      simp only [runScope, hstep]
      exact hrest.2.2.1
    have hallow : Bucket.allow ⟨0, N, W, u⟩ t2 = (true, ⟨N - 1, N, W, t2⟩) := by
      have hreset : Bucket.reset ⟨0, N, W, u⟩ t2 = ⟨N, N, W, t2⟩ := by
        simp [Bucket.reset, hlate]
      simp [Bucket.allow, hreset, hN]
    have hSlim : ((runScope ⟨N, W, bmap⟩ key (u :: us)).2.limit == 0) = false := by
      rw [hlim2]
      exact hNe
    simp [allowScope, hSlim, hfinal, hallow]

/-- C1 witness: limit 2, window 10, fresh key: checks at instants 0, 1, 2
answer `true`, `true`, `false`, and a check at instant 10 answers `true`. -/
theorem c1_token_bucket_witness :
    (runScope ⟨2, 10, fun _ => none⟩ (gs "k") [0, 1, 2]).1 =
      List.replicate 2 true ++ [false] ∧
    (allowScope (runScope ⟨2, 10, fun _ => none⟩ (gs "k") [0, 1, 2]).2
      (gs "k") 10).1 = true := by
  exact c1_token_bucket_window 2 10 (gs "k") (fun _ => none) 0 [1, 2] 10
    (by decide) rfl rfl (by decide) (by decide)

/-- C6: `checkConditions` is AND-semantics over the condition list — it can
only answer `true` when every condition passes, a single failing condition
forces `false` — and a role condition whose member lookup errors evaluates
to `false` (the evaluator returns a plain boolean, so no error can reach the
caller). -/
theorem c6_condition_and_fail_closed (env : Env) (msg : Msg) (a : HAction) :
    ((checkConditions env msg a).1 = true →
      ∀ c ∈ a.conditions, checkCondition env msg c = true) ∧
    (∀ c ∈ a.conditions, checkCondition env msg c = false →
      (checkConditions env msg a).1 = false) ∧
    (∀ c : HCondition, c.type = gs "role" →
      env.guildMember msg.guildID msg.authorID = Except.error () →
      checkCondition env msg c = false) := by
  refine ⟨?_, ?_, ?_⟩
  · intro h c hc
    simp only [checkConditions] at h
    split at h
    · simp at h
    · split at h
      · simp at h
      · split at h
        · simp at h
        · split at h
          · simp at h
          · simp only [List.all_eq_true] at h
            exact h c hc
  · intro c hc hfalse
    simp only [checkConditions]
    split
    · rfl
    · split
      · rfl
      · split
        · rfl
        · split
          · rfl
          · simp only []
            rw [List.all_eq_false]
            exact ⟨c, hc, by simp [hfalse]⟩
  · intro c htype herr
    have h1 : (gs "role" == gs "channel") = false := by decide
    have h2 : (gs "role" == gs "user") = false := by decide
    have h3 : (gs "role" == gs "role") = true := by decide
    rw [checkCondition, htype]
    simp only [h1, h2, h3, Bool.false_eq_true, if_false, if_true]
    split
    · rfl
    · rw [herr]

/-- C7: when a rule requires authentication, the auth capability is enabled,
and the caller is not authenticated, `checkConditions` fails before looking
at any configured condition and sends exactly one message, which ends with
the caller's authentication URL. -/
theorem c7_unauthenticated_gate (env : Env) (msg : Msg) (a : HAction)
    (hra : a.requireAuth = true)
    (hen : env.authEnabled = true)
    (hun : env.isAuthenticated msg.authorID = false)
    (hch : a.triggerChannels = [] ∨
      a.triggerChannels.any (fun ch => ch == msg.channelID) = true)
    (hg : a.triggerGuilds = [] ∨
      a.triggerGuilds.any (fun g => g == msg.guildID) = true) :
    checkConditions env msg a =
      (false, [authPrompt (env.getAuthURL msg.authorID)]) ∧
    ∃ p, authPrompt (env.getAuthURL msg.authorID) =
      p ++ env.getAuthURL msg.authorID := by
  have g1 : (decide (0 < a.triggerChannels.length) &&
      !(a.triggerChannels.any (fun ch => ch == msg.channelID))) = false := by
    rcases hch with h | h
    · simp [h]
    · simp [h]
  have g2 : (decide (0 < a.triggerGuilds.length) &&
      !(a.triggerGuilds.any (fun g => g == msg.guildID))) = false := by
    rcases hg with h | h
    · simp [h]
    · simp [h]
  refine ⟨?_, ⟨gs "This command requires authentication. Please authenticate here: ", rfl⟩⟩
  simp only [checkConditions, g1, g2, hra, hen, hun]
  simp

/-- C6 witness: on a concrete event, condition evaluation is exercised in all
three directions — a passing channel condition, a failing role condition
forcing the whole check to `false`, and the role-lookup error itself. -/
theorem c6_condition_witness :
    (∀ c ∈ Fixture.actChanC.conditions,
      checkCondition Fixture.envRoleOk Fixture.msgPing c = true) ∧
    (checkConditions Fixture.envRoleErr Fixture.msgPing Fixture.actRole).1 = false ∧
    checkCondition Fixture.envRoleErr Fixture.msgPing Fixture.condRole = false :=
  ⟨(c6_condition_and_fail_closed Fixture.envRoleOk Fixture.msgPing Fixture.actChanC).1
      (by decide),
   (c6_condition_and_fail_closed Fixture.envRoleErr Fixture.msgPing Fixture.actRole).2.1
      Fixture.condRole (by decide)
      ((c6_condition_and_fail_closed Fixture.envRoleErr Fixture.msgPing
        Fixture.actRole).2.2 Fixture.condRole rfl rfl),
   (c6_condition_and_fail_closed Fixture.envRoleErr Fixture.msgPing
      Fixture.actRole).2.2 Fixture.condRole rfl rfl⟩

/-- C7 witness: the concrete auth-gated `!ping` rule with an unauthenticated
caller fails its check and sends exactly the one auth-prompt message, which
ends with the caller's auth URL. -/
theorem c7_unauthenticated_witness :
    checkConditions Fixture.envAuth Fixture.msgPing Fixture.actAuth =
      (false, [authPrompt (Fixture.envAuth.getAuthURL Fixture.msgPing.authorID)]) ∧
    ∃ p, authPrompt (Fixture.envAuth.getAuthURL Fixture.msgPing.authorID) =
      p ++ Fixture.envAuth.getAuthURL Fixture.msgPing.authorID :=
  c7_unauthenticated_gate Fixture.envAuth Fixture.msgPing Fixture.actAuth
    rfl rfl rfl (Or.inl rfl) (Or.inl rfl)

/-- C2 counterexample: two registered `!ping` command rules whose triggers
both match the event, yet the dispatched rule is the second one, because the
first rule's channel condition fails and the loop continues past it. -/
theorem c2_counterexample :
    triggerMatches Fixture.envRoleOk.pfx Fixture.actFirst Fixture.msgPing.content = true ∧
    triggerMatches Fixture.envRoleOk.pfx Fixture.actSecond Fixture.msgPing.content = true ∧
    Fixture.actFirst.name ≠ Fixture.actSecond.name ∧
    (handleMessage Fixture.envRoleOk (fun _ => []) Fixture.msgPing 0
      [Fixture.actFirst, Fixture.actSecond]).1 = some Fixture.actSecond.name := by
  refine ⟨by decide, by decide, by decide, by decide⟩

/-- C2 amended: the dispatched rule is the first one in registration order
whose trigger matches and whose conditions and rate limit pass; earlier rules
that are of the wrong kind, whose trigger does not match, whose conditions
fail, or whose rate limit rejects are skipped (each skipped rate-limit check
leaving its state mutation behind) and do not prevent the dispatch, and no
rule after the dispatched one executes. -/
theorem c2_first_eligible_dispatch (env : Env) (msg : Msg)
    (now : Int) (pre : List HAction) (a : HAction) (rest : List HAction) :
    ∀ st : RLState, allSkipped env msg now st pre →
    (a.type = gs "command" ∨ a.type = gs "message") →
    triggerMatches env.pfx a msg.content = true →
    (checkConditions env msg a).1 = true →
    (checkRateLimit (skipState env msg now st pre) msg.authorID msg.channelID
      msg.guildID a now).1 = true →
    (handleMessage env st msg now (pre ++ a :: rest)).1 = some a.name := by
  induction pre with
  | nil =>
    intro st _ hty htr hcond hrl
    have hty2 : (a.type != gs "message" && a.type != gs "command") = false := by
      rcases hty with h | h <;> simp [h]
    simp only [List.nil_append, handleMessage, hty2, htr, hcond]
    simp only [skipState] at hrl
    simp [hrl]
  | cons b pre ih =>
    intro st hpre hty htr hcond hrl
    obtain ⟨hb, hrest⟩ := hpre
    have hrl2 : (checkRateLimit
        (skipState env msg now (skipStep env msg now st b) pre) msg.authorID
        msg.channelID msg.guildID a now).1 = true := hrl
    have hih := ih (skipStep env msg now st b) hrest hty htr hcond hrl2
    simp only [List.cons_append, handleMessage]
    by_cases hc1 : (b.type != gs "message" && b.type != gs "command") = true
    · have hstep : skipStep env msg now st b = st := by
        simp [skipStep, hc1]
      rw [hc1]
      rw [hstep] at hih
      simpa using hih
    · have hc1f := Bool.eq_false_iff.mpr hc1
      rw [hc1f]
      by_cases htr2 : triggerMatches env.pfx b msg.content = true
      · by_cases hcond2 : (checkConditions env msg b).1 = true
        · have hrlf : (checkRateLimit st msg.authorID msg.channelID
              msg.guildID b now).1 = false := by
            rcases hb with ⟨hx, hy⟩ | hx | hx | hx
            · exact absurd hc1f (by simp [hx, hy])
            · exact absurd htr2 (by simp [hx])
            · exact absurd hcond2 (by simp [hx])
            · exact hx
          have hstep : skipStep env msg now st b =
              (checkRateLimit st msg.authorID msg.channelID msg.guildID b now).2 := by
            simp [skipStep, hc1f, htr2, hcond2]
          rw [hstep] at hih
          simp only [htr2, hcond2, hrlf, Bool.not_true, Bool.not_false,
            Bool.false_eq_true, if_false, if_true]
          simpa using hih
        · have hcondf := Bool.eq_false_iff.mpr hcond2
          have hstep : skipStep env msg now st b = st := by
            simp [skipStep, hc1f, htr2, hcondf]
          rw [hstep] at hih
          simp only [htr2, hcondf, Bool.not_true, Bool.not_false,
            Bool.false_eq_true, if_false, if_true]
          simpa using hih
      · have htrf := Bool.eq_false_iff.mpr htr2
        have hstep : skipStep env msg now st b = st := by
          simp [skipStep, hc1f, htrf]
        rw [hstep] at hih
        simp only [htrf, Bool.not_false, if_true]
        simpa using hih

/-- C2 amended witness: with a failing-condition rule and a rate-limited-out
rule registered first, the unconditioned third rule is dispatched even with
a fourth matching rule registered after it. -/
theorem c2_first_eligible_witness :
    (handleMessage Fixture.envRoleOk (fun _ => []) Fixture.msgPing 0
      ([Fixture.actFirst, Fixture.actRLZero] ++
        Fixture.actSecond :: [Fixture.baseAct])).1 =
      some Fixture.actSecond.name :=
  c2_first_eligible_dispatch Fixture.envRoleOk Fixture.msgPing 0
    [Fixture.actFirst, Fixture.actRLZero] Fixture.actSecond [Fixture.baseAct]
    (fun _ => [])
    ⟨Or.inr (Or.inr (Or.inl (by decide))),
      ⟨Or.inr (Or.inr (Or.inr (by decide))), trivial⟩⟩
    (Or.inl rfl) (by decide) (by decide) (by decide)

/-- C10 counterexample: rules named `a` (user scope) and `a:b` (global scope)
have distinct names, yet for the caller `b` they build the same bucket key
`a:b`, so exhausting the first rule's one-request limit makes the second
rule's check fail for the very same caller/locality/group. -/
theorem c10_counterexample :
    Fixture.actRL1.name ≠ Fixture.actRL2.name ∧
    (checkRateLimit (fun _ => []) Fixture.msgB.authorID Fixture.msgB.channelID
      Fixture.msgB.guildID Fixture.actRL1 0).1 = true ∧
    (checkRateLimit
      (checkRateLimit (fun _ => []) Fixture.msgB.authorID Fixture.msgB.channelID
        Fixture.msgB.guildID Fixture.actRL1 0).2
      Fixture.msgB.authorID Fixture.msgB.channelID Fixture.msgB.guildID
      Fixture.actRL2 0).1 = false := by
  refine ⟨by decide, by decide, by decide⟩

/-- C10 amended: the bucket key always embeds the rule name before the scope
identifier (`name:id`, bare `name` for global scope), so two rules with
distinct names and the same scope always use distinct keys for the same
caller/locality/group; and an `Allow` call on one key neither changes any
other key's recorded requests nor reads anything but its own key — hence
exhausting one rule never affects a same-scoped rule with a different name.
(Across different scopes, names containing the `:` separator can still
collide, as the counterexample shows.) -/
theorem c10_per_rule_key_isolation (n1 n2 sc u c g : Str) (st : RLState)
    (k k2 : Str) (m : Nat) (w t : Int)
    (hne : n1 ≠ n2) (hk : k2 ≠ k) :
    scopeKey n1 sc u c g ≠ scopeKey n2 sc u c g ∧
    (rlAllow st k m w t).2 k2 = st k2 ∧
    (∀ st2 : RLState, st2 k = st k →
      (rlAllow st2 k m w t).1 = (rlAllow st k m w t).1) := by
  refine ⟨?_, ?_, ?_⟩
  · intro h
    apply hne
    simp only [scopeKey] at h
    split_ifs at h
    all_goals
      first
      | exact h
      | exact List.append_cancel_right (List.append_cancel_right h)
  · have hb : (k2 == k) = false := by
      simp [hk]
    simp only [rlAllow]
    split <;> simp [hb]
  · intro st2 h2
    simp only [rlAllow]
    rw [h2]
    split <;> rfl

/-- C10 amended witness: two same-scoped rules `r1` and `r2` for the same
caller get distinct keys, and a check on `r1`'s key leaves `r2`'s bucket and
answer untouched. -/
theorem c10_per_rule_key_witness :
    scopeKey (gs "r1") (gs "user") (gs "U") (gs "C") (gs "G") ≠
      scopeKey (gs "r2") (gs "user") (gs "U") (gs "C") (gs "G") ∧
    (rlAllow (fun _ => []) (gs "r1:U") 1 60 0).2 (gs "r2:U") = [] ∧
    (∀ st2 : RLState, st2 (gs "r1:U") = [] →
      (rlAllow st2 (gs "r1:U") 1 60 0).1 =
        (rlAllow (fun _ => []) (gs "r1:U") 1 60 0).1) :=
  c10_per_rule_key_isolation (gs "r1") (gs "r2") (gs "user") (gs "U") (gs "C")
    (gs "G") (fun _ => []) (gs "r1:U") (gs "r2:U") 1 60 0
    (by decide) (by decide)

/-- Mapping the success value of an `Except` neither creates nor removes an
error. -/
theorem exceptMap_error_iff {α β γ : Type} (f : α → β) (x : Except γ α) :
    (∃ e, Except.map f x = Except.error e) ↔ (∃ e, x = Except.error e) := by
  cases x <;> simp [Except.map]

/-- C8 counterexample: a descriptor list containing only an action of unknown
type `bogus` loads successfully with an empty registry — the unknown trigger
kind is silently skipped, not a load-time failure. -/
theorem c8_counterexample :
    PkgAction.newManager Fixture.compileOk (gs "!") [Fixture.bogusCfg] =
      Except.ok [] := rfl

/-- C8 amended: registry construction fails exactly when some descriptor of
type `message` has a pattern the regex compiler rejects; in particular a
malformed pattern aborts the whole load, while unknown trigger kinds never
cause an error (they are skipped). -/
theorem c8_load_error_iff_bad_pattern (compile : Str → Except Str (Str → Bool))
    (pfx : Str) (cfgs : List PkgAction.ActionConfig) :
    (∃ err, PkgAction.newManager compile pfx cfgs = Except.error err) ↔
      (∃ c ∈ cfgs, c.type = gs "message" ∧
        ∃ e, compile c.trigger.pattern = Except.error e) := by
  induction cfgs with
  | nil => simp [PkgAction.newManager]
  | cons c rest ih =>
    simp only [PkgAction.newManager]
    rw [List.exists_mem_cons_iff]
    by_cases h1 : (c.type == gs "command") = true
    · have hnc : ¬(c.type = gs "message" ∧
          ∃ e, compile c.trigger.pattern = Except.error e) := by
        rintro ⟨hm, _⟩
        rw [beq_iff_eq] at h1
        rw [h1] at hm
        exact absurd hm (by decide)
      rw [if_pos h1, exceptMap_error_iff, ih]
      simp [hnc]
    · rw [if_neg h1]
      by_cases h2 : (c.type == gs "message") = true
      · rw [if_pos h2]
        cases hcomp : compile c.trigger.pattern with
        | error e =>
          simp only []
          constructor
          · intro _
            exact Or.inl ⟨beq_iff_eq.mp h2, e, rfl⟩
          · intro _
            exact ⟨_, rfl⟩
        | ok re =>
          simp only []
          have hnc : ¬(c.type = gs "message" ∧
              ∃ e, compile c.trigger.pattern = Except.error e) := by
            rintro ⟨_, e, he⟩
            rw [hcomp] at he
            cases he
          rw [exceptMap_error_iff, ih]
          simp [hnc]
      · have hnc : ¬(c.type = gs "message" ∧
            ∃ e, compile c.trigger.pattern = Except.error e) := by
          rintro ⟨hm, _⟩
          rw [hm] at h2
          exact h2 (by decide)
        rw [if_neg h2]
        by_cases h3 : (c.type == gs "reaction") = true
        · rw [if_pos h3, exceptMap_error_iff, ih]
          simp [hnc]
        · rw [if_neg h3, ih]
          simp [hnc]

/-- A string prefixed by `p` passes `goHasPfx p`. -/
theorem goHasPfx_append (p s : Str) : GoStr.goHasPfx p (p ++ s) = true := by
  induction p with
  | nil => rfl
  | cons a as ih => simp [GoStr.goHasPfx, ih]

/-- `goHasPfx p s` succeeds only on strings of the form `p ++ r`. -/
theorem goHasPfx_exists (p : Str) : ∀ s : Str,
    GoStr.goHasPfx p s = true → ∃ r, s = p ++ r := by
  induction p with
  | nil => exact fun s _ => ⟨s, rfl⟩
  | cons a as ih =>
    intro s h
    cases s with
    | nil => simp [GoStr.goHasPfx] at h
    | cons b bs =>
      simp only [GoStr.goHasPfx, Bool.and_eq_true, beq_iff_eq] at h
      obtain ⟨hab, h2⟩ := h
      obtain ⟨r, hr⟩ := ih bs h2
      subst hab
      exact ⟨r, by rw [hr]; rfl⟩

/-- Trimming an explicitly present leading portion removes exactly it. -/
theorem goTrimPfx_append (p r : Str) : GoStr.goTrimPfx p (p ++ r) = r := by
  simp [GoStr.goTrimPfx, goHasPfx_append, List.drop_left]

/-- `takeWhile` passes over a block that satisfies the predicate. -/
theorem takeWhile_append_all (p : Char → Bool) (a b : Str)
    (h : ∀ c ∈ a, p c = true) :
    List.takeWhile p (a ++ b) = a ++ List.takeWhile p b := by
  induction a with
  | nil => rfl
  | cons x xs ih =>
    have hx : p x = true := h x (List.mem_cons_self x xs)
    simp [List.takeWhile_cons, hx,
      ih (fun c hc => h c (List.mem_cons_of_mem x hc))]

/-- `dropWhile` consumes a block that satisfies the predicate. -/
theorem dropWhile_append_all (p : Char → Bool) (a b : Str)
    (h : ∀ c ∈ a, p c = true) :
    List.dropWhile p (a ++ b) = List.dropWhile p b := by
  induction a with
  | nil => rfl
  | cons x xs ih =>
    have hx : p x = true := h x (List.mem_cons_self x xs)
    simp [List.dropWhile_cons, hx,
      ih (fun c hc => h c (List.mem_cons_of_mem x hc))]

/-- `dropWhile` never crosses an element failing the predicate. -/
theorem dropWhile_append_stop (p : Char → Bool) (a : Str) (b : Char) (bs : Str)
    (hb : p b = false) :
    List.dropWhile p (a ++ b :: bs) = List.dropWhile p a ++ b :: bs := by
  induction a with
  | nil => simp [List.dropWhile_cons, hb]
  | cons x xs ih =>
    by_cases hx : p x = true
    · simp [List.dropWhile_cons, hx, ih]
    · simp [List.dropWhile_cons, hx]

/-- The first survivor of `dropWhile` fails the predicate. -/
theorem dropWhile_head_false (p : Char → Bool) : ∀ (l : Str) (d : Char) (ds : Str),
    List.dropWhile p l = d :: ds → p d = false := by
  intro l
  induction l with
  | nil => intro d ds h; simp at h
  | cons a as ih =>
    intro d ds h
    by_cases ha : p a = true
    · rw [List.dropWhile_cons, if_pos ha] at h
      exact ih d ds h
    · rw [List.dropWhile_cons, if_neg ha] at h
      injection h with h1 _
      subst h1
      simpa using ha

/-- `trimRight` splits a string into its result plus trailing whitespace. -/
theorem trimRight_decomp (s : Str) :
    ∃ tw, s = GoStr.trimRight s ++ tw ∧ ∀ c ∈ tw, GoStr.go_isSpace c = true := by
  refine ⟨(s.reverse.takeWhile GoStr.go_isSpace).reverse, ?_, ?_⟩
  · conv_lhs => rw [← List.reverse_reverse s,
      ← List.takeWhile_append_dropWhile GoStr.go_isSpace s.reverse]
    rw [List.reverse_append]
    rfl
  · intro c hc
    rw [List.mem_reverse] at hc
    exact List.mem_takeWhile_imp hc

/-- `trimRight` keeps a leading all-nonspace block intact. -/
theorem trimRight_append_nonspace (tok rest : Str) (hne : tok ≠ [])
    (hns : ∀ c ∈ tok, GoStr.go_isSpace c = false) :
    GoStr.trimRight (tok ++ rest) = tok ++ GoStr.trimRight rest := by
  unfold GoStr.trimRight
  rw [List.reverse_append]
  cases htr : tok.reverse with
  | nil =>
    exact absurd (by simpa using htr) hne
  | cons b bs =>
    have hbmem : b ∈ tok := by
      have : b ∈ tok.reverse := by rw [htr]; exact List.mem_cons_self b bs
      simpa [List.mem_reverse] using this
    have hb : GoStr.go_isSpace b = false := hns b hbmem
    rw [dropWhile_append_stop GoStr.go_isSpace rest.reverse b bs hb,
      List.reverse_append]
    have : (b :: bs).reverse = tok := by rw [← htr, List.reverse_reverse]
    rw [this]

/-- `trimRight` returns a prefix of its argument. -/
theorem trimRight_isPrefix (s : Str) : GoStr.trimRight s <+: s := by
  have h := List.dropWhile_suffix (l := s.reverse) GoStr.go_isSpace
  have h2 := List.reverse_prefix.mpr h
  rwa [List.reverse_reverse] at h2

/-- A prefix of a nonempty list is empty or starts with its head. -/
theorem isPrefix_cons_cases (l : Str) (d : Char) (ds : Str) (h : l <+: d :: ds) :
    l = [] ∨ ∃ es, l = d :: es := by
  rcases h with ⟨r, hr⟩
  cases l with
  | nil => exact Or.inl rfl
  | cons b bs =>
    injection hr with h1 _
    exact Or.inr ⟨bs, by rw [h1]⟩

/-- Decomposing a string as leading whitespace, a nonempty nonspace word, and
a remainder that is empty or starts with whitespace pins the first entry of
`fields`. -/
theorem fields_head_of_decomp : ∀ (ws tok rest : Str),
    (∀ c ∈ ws, GoStr.go_isSpace c = true) → tok ≠ [] →
    (∀ c ∈ tok, GoStr.go_isSpace c = false) →
    (rest = [] ∨ ∃ d ds, rest = d :: ds ∧ GoStr.go_isSpace d = true) →
    ∃ tl, GoStr.fields (ws ++ tok ++ rest) = tok :: tl := by
  intro ws
  induction ws with
  | nil =>
    intro tok rest _ hne hns hrest
    cases tok with
    | nil => exact absurd rfl hne
    | cons h t =>
      have hh : GoStr.go_isSpace h = false := hns h (List.mem_cons_self h t)
      have h1 : (t ++ rest).takeWhile (fun d => !GoStr.go_isSpace d) = t := by
        rw [takeWhile_append_all _ t rest
          (fun c hc => by simp [hns c (List.mem_cons_of_mem h hc)])]
        rcases hrest with rfl | ⟨d, ds, rfl, hd⟩
        · simp
        · simp [List.takeWhile_cons, hd]
      have h2 : (t ++ rest).dropWhile (fun d => !GoStr.go_isSpace d) = rest := by
        rw [dropWhile_append_all _ t rest
          (fun c hc => by simp [hns c (List.mem_cons_of_mem h hc)])]
        rcases hrest with rfl | ⟨d, ds, rfl, hd⟩
        · rfl
        · simp [List.dropWhile_cons, hd]
      refine ⟨GoStr.fields rest, ?_⟩
      show GoStr.fields ([] ++ (h :: t) ++ rest) = (h :: t) :: GoStr.fields rest
      simp only [List.nil_append, List.cons_append]
      simp only [GoStr.fields, hh, Bool.false_eq_true, if_false, h1, h2]
  | cons w ws ih =>
    intro tok rest hws hne hns hrest
    have hw : GoStr.go_isSpace w = true := hws w (List.mem_cons_self w ws)
    obtain ⟨tl, htl⟩ := ih tok rest
      (fun c hc => hws c (List.mem_cons_of_mem w hc)) hne hns hrest
    refine ⟨tl, ?_⟩
    show GoStr.fields ((w :: ws) ++ tok ++ rest) = tok :: tl
    simp only [List.cons_append]
    simp only [GoStr.fields, hw, if_true]
    simpa [List.cons_append] using htl

/-- Conversely, the first entry of `fields` induces such a decomposition. -/
theorem fields_decomp_aux : ∀ (n : Nat) (s : Str), s.length ≤ n →
    ∀ tok tl, GoStr.fields s = tok :: tl →
    ∃ ws rest, s = ws ++ tok ++ rest ∧
      (∀ c ∈ ws, GoStr.go_isSpace c = true) ∧ tok ≠ [] ∧
      (∀ c ∈ tok, GoStr.go_isSpace c = false) ∧
      (rest = [] ∨ ∃ d ds, rest = d :: ds ∧ GoStr.go_isSpace d = true) := by
  intro n
  induction n with
  | zero =>
    intro s hs tok tl h
    have hnil : s = [] := List.length_eq_zero.mp (Nat.le_zero.mp hs)
    subst hnil
    simp [GoStr.fields] at h
  | succ n ih =>
    intro s hs tok tl h
    cases s with
    | nil => simp [GoStr.fields] at h
    | cons c cs =>
      have hlen : cs.length ≤ n := by
        simp only [List.length_cons] at hs
        omega
      by_cases hc : GoStr.go_isSpace c = true
      · have h2 : GoStr.fields cs = tok :: tl := by
          simpa [GoStr.fields, hc] using h
        obtain ⟨ws, rest, heq, hws, hne, hns, hrest⟩ := ih cs hlen tok tl h2
        refine ⟨c :: ws, rest, ?_, ?_, hne, hns, hrest⟩
        · rw [List.cons_append, List.cons_append, ← heq]
        · intro d hd
          rcases List.mem_cons.mp hd with rfl | hd2
          · exact hc
          · exact hws d hd2
      · have hcf : GoStr.go_isSpace c = false := by
          simpa using hc
        have h2 : (c :: cs.takeWhile (fun d => !GoStr.go_isSpace d)) ::
            GoStr.fields (cs.dropWhile (fun d => !GoStr.go_isSpace d)) = tok :: tl := by
          simpa [GoStr.fields, hcf] using h
        injection h2 with ha _
        refine ⟨[], cs.dropWhile (fun d => !GoStr.go_isSpace d), ?_, by simp, ?_, ?_, ?_⟩
        · rw [← ha]
          simp [List.takeWhile_append_dropWhile]
        · rw [← ha]
          exact List.cons_ne_nil c _
        · rw [← ha]
          intro d hd
          rcases List.mem_cons.mp hd with rfl | hd2
          · exact hcf
          · have := List.mem_takeWhile_imp hd2
            simpa using this
        · rcases hdrop : cs.dropWhile (fun d => !GoStr.go_isSpace d) with _ | ⟨d, ds⟩
          · exact Or.inl rfl
          · have hd := dropWhile_head_false (fun d => !GoStr.go_isSpace d) cs d ds hdrop
            exact Or.inr ⟨d, ds, rfl, by simpa using hd⟩

/-- The first entry of `fields` induces a whitespace/word/remainder
decomposition of the string. -/
theorem fields_decomp (s tok : Str) (tl : List Str)
    (h : GoStr.fields s = tok :: tl) :
    ∃ ws rest, s = ws ++ tok ++ rest ∧
      (∀ c ∈ ws, GoStr.go_isSpace c = true) ∧ tok ≠ [] ∧
      (∀ c ∈ tok, GoStr.go_isSpace c = false) ∧
      (rest = [] ∨ ∃ d ds, rest = d :: ds ∧ GoStr.go_isSpace d = true) :=
  fields_decomp_aux s.length s (Nat.le_refl _) tok tl h

/-- C4 amended: `CommandHandler.Matches` holds iff the trimmed content starts
with the prefix, followed by optional whitespace and then the keyword as a
complete whitespace-delimited word — compared case-insensitively.  Merely
starting with `prefix + keyword` is neither necessary nor sufficient. -/
theorem c4_matches_characterization (p cmd content : Str) :
    (PkgAction.newCommandHandler p cmd).matches content = true ↔
      ∃ ws tok rest, GoStr.trimSpace content = p ++ ws ++ tok ++ rest ∧
        (∀ c ∈ ws, GoStr.go_isSpace c = true) ∧
        tok ≠ [] ∧ (∀ c ∈ tok, GoStr.go_isSpace c = false) ∧
        (rest = [] ∨ ∃ d ds, rest = d :: ds ∧ GoStr.go_isSpace d = true) ∧
        GoStr.toLowerStr tok = GoStr.toLowerStr cmd := by
  constructor
  · intro hm
    simp only [PkgAction.CommandHandler.matches, PkgAction.newCommandHandler] at hm
    by_cases hp : GoStr.goHasPfx p (GoStr.trimSpace content) = true
    · simp only [hp, Bool.not_true, Bool.false_eq_true, if_false] at hm
      cases hf : GoStr.fields
          (GoStr.trimSpace (GoStr.goTrimPfx p (GoStr.trimSpace content))) with
      | nil => rw [hf] at hm; simp at hm
      | cons w tl =>
        rw [hf] at hm
        simp only [beq_iff_eq] at hm
        obtain ⟨r, hr⟩ := goHasPfx_exists p (GoStr.trimSpace content) hp
        have htp : GoStr.goTrimPfx p (GoStr.trimSpace content) = r := by
          rw [hr]; exact goTrimPfx_append p r
        rw [htp] at hf
        obtain ⟨ws2, rest2, hdec, hws2, hne2, hns2, hrest2⟩ :=
          fields_decomp (GoStr.trimSpace r) w tl hf
        have h8 : r = r.takeWhile GoStr.go_isSpace ++ GoStr.trimLeft r :=
          (List.takeWhile_append_dropWhile _ _).symm
        obtain ⟨tw, h9, htw⟩ := trimRight_decomp (GoStr.trimLeft r)
        have h9b : GoStr.trimLeft r = GoStr.trimSpace r ++ tw := h9
        refine ⟨r.takeWhile GoStr.go_isSpace ++ ws2, w, rest2 ++ tw, ?_, ?_,
          hne2, hns2, ?_, hm⟩
        · calc GoStr.trimSpace content = p ++ r := hr
            _ = p ++ (List.takeWhile GoStr.go_isSpace r ++ GoStr.trimLeft r) := by
                rw [← h8]
            _ = p ++ (List.takeWhile GoStr.go_isSpace r ++
                (GoStr.trimSpace r ++ tw)) := by rw [h9b]
            _ = p ++ (List.takeWhile GoStr.go_isSpace r ++
                ((ws2 ++ w ++ rest2) ++ tw)) := by rw [hdec]
            _ = p ++ (List.takeWhile GoStr.go_isSpace r ++ ws2) ++ w ++
                (rest2 ++ tw) := by simp [List.append_assoc]
        · intro d hd
          rcases List.mem_append.mp hd with hd2 | hd2
          · exact List.mem_takeWhile_imp hd2
          · exact hws2 d hd2
        · rcases hrest2 with rfl | ⟨d, ds, rfl, hd⟩
          · cases htw0 : tw with
            | nil => exact Or.inl (by simp [htw0])
            | cons d ds =>
              refine Or.inr ⟨d, ds, by simp [htw0], ?_⟩
              exact htw d (by rw [htw0]; exact List.mem_cons_self d ds)
          · exact Or.inr ⟨d, ds ++ tw, by simp, hd⟩
    · simp only [Bool.not_eq_true] at hp
      simp [hp] at hm
  · rintro ⟨ws, tok, rest, hdec, hws, hne, hns, hrest, hlow⟩
    have hp : GoStr.goHasPfx p (GoStr.trimSpace content) = true := by
      rw [hdec]
      simp only [List.append_assoc]
      exact goHasPfx_append p _
    have htp : GoStr.goTrimPfx p (GoStr.trimSpace content) = ws ++ tok ++ rest := by
      rw [hdec]
      simp only [List.append_assoc]
      rw [goTrimPfx_append]
    have hTL : GoStr.trimLeft (ws ++ tok ++ rest) = tok ++ rest := by
      unfold GoStr.trimLeft
      rw [List.append_assoc,
        dropWhile_append_all GoStr.go_isSpace ws (tok ++ rest) hws]
      cases tok with
      | nil => exact absurd rfl hne
      | cons h t =>
        have hh : GoStr.go_isSpace h = false := hns h (List.mem_cons_self h t)
        simp [List.dropWhile_cons, hh]
    have hTS : GoStr.trimSpace (ws ++ tok ++ rest) = tok ++ GoStr.trimRight rest := by
      unfold GoStr.trimSpace
      rw [hTL]
      exact trimRight_append_nonspace tok rest hne hns
    have hrest2 : GoStr.trimRight rest = [] ∨
        ∃ d ds, GoStr.trimRight rest = d :: ds ∧ GoStr.go_isSpace d = true := by
      rcases hrest with rfl | ⟨d, ds, rfl, hd⟩
      · exact Or.inl rfl
      · rcases isPrefix_cons_cases (GoStr.trimRight (d :: ds)) d ds
          (trimRight_isPrefix (d :: ds)) with h0 | ⟨es, hes⟩
        · exact Or.inl h0
        · exact Or.inr ⟨d, es, hes, hd⟩
    obtain ⟨tl, htl⟩ := fields_head_of_decomp [] tok (GoStr.trimRight rest)
      (by simp) hne hns hrest2
    simp only [List.nil_append] at htl
    simp only [PkgAction.CommandHandler.matches, PkgAction.newCommandHandler,
      hp, Bool.not_true, Bool.false_eq_true, if_false, htp, hTS, htl]
    simp [hlow]

/-- C4 counterexample: under prefix `!` and keyword `ping`, the content
`!pingx` starts with `!ping` (so the claim's condition holds, case apart),
yet `CommandHandler.Matches` rejects it — the first word must equal the
keyword, not merely extend it. -/
theorem c4_counterexample :
    PkgAction.claimC4Matches (gs "!") (gs "ping") (gs "!pingx") = true ∧
    (PkgAction.newCommandHandler (gs "!") (gs "ping")).matches (gs "!pingx") = false := by
  constructor
  · decide
  · have e5 : ∃ tl, GoStr.fields (gs "pingx") = (gs "pingx") :: tl := by
      have h := fields_head_of_decomp [] (gs "pingx") []
        (by simp) (by decide) (by decide) (Or.inl rfl)
      simpa using h
    obtain ⟨tl, htl⟩ := e5
    have e1 : GoStr.trimSpace (gs "!pingx") = gs "!pingx" := by decide
    have e2 : GoStr.goHasPfx (gs "!") (gs "!pingx") = true := by decide
    have e3 : GoStr.goTrimPfx (gs "!") (gs "!pingx") = gs "pingx" := by decide
    have e4 : GoStr.trimSpace (gs "pingx") = gs "pingx" := by decide
    simp only [PkgAction.CommandHandler.matches, PkgAction.newCommandHandler,
      e1, e2, e3, e4, htl, Bool.not_true, Bool.false_eq_true, if_false]
    decide

end Theorems
